import Mathlib

/-!
Verification of the Van der Waals interaction simulation engine.

This file gives a shallow embedding, over an arbitrary linear ordered field
(instantiated at the rationals for executable claims and at the reals where
the source takes a square root), of the engine found in the repository:
the pairwise interaction law (src/physics.rs), the spatial grid and the
boundary (src/state/sim_space.rs), the ring buffer (src/ring_buffer.rs),
the pressure sampler, prototype validation and the simulation state
(src/state.rs), and the frame driver (src/state/sim_systems.rs).
Machine floats are embedded as exact field elements; field division is
total with x / 0 = 0.

Parts of the engine referenced by src/state.rs are absent from the
source tree (the particle type carrying a heat method and a neighbor
count, the per-frame driver calling recalculate_kinetic_energy, and the
pressure-pinning controller).  Definitions for those parts are modelled
from the specification and carry a doc comment saying so.
-/

/-- A 3-component vector, the embedding of glam and nalgebra vectors of
machine floats (Vec3, Vector3). -/
@[ext]
structure Vec3 (α : Type) where
  x : α
  y : α
  z : α
deriving DecidableEq, Repr

variable {α : Type} [LinearOrderedField α]

instance : Add (Vec3 α) where
  add a b := ⟨a.x + b.x, a.y + b.y, a.z + b.z⟩

instance : Sub (Vec3 α) where
  sub a b := ⟨a.x - b.x, a.y - b.y, a.z - b.z⟩

instance : Neg (Vec3 α) where
  neg a := ⟨-a.x, -a.y, -a.z⟩

instance : Zero (Vec3 α) where
  zero := ⟨0, 0, 0⟩

instance : SMul α (Vec3 α) where
  smul c a := ⟨c * a.x, c * a.y, c * a.z⟩

@[simp]
theorem Vec3.add_def (a b : Vec3 α) : a + b = ⟨a.x + b.x, a.y + b.y, a.z + b.z⟩ := rfl

@[simp]
theorem Vec3.sub_def (a b : Vec3 α) : a - b = ⟨a.x - b.x, a.y - b.y, a.z - b.z⟩ := rfl

@[simp]
theorem Vec3.neg_def (a : Vec3 α) : -a = ⟨-a.x, -a.y, -a.z⟩ := rfl

@[simp]
theorem Vec3.zero_def : (0 : Vec3 α) = ⟨0, 0, 0⟩ := rfl

@[simp]
theorem Vec3.smul_def (c : α) (a : Vec3 α) : c • a = ⟨c * a.x, c * a.y, c * a.z⟩ := rfl

/-- Componentwise division by a scalar (the source writes r / R0). -/
def Vec3.divScalar (v : Vec3 α) (c : α) : Vec3 α := ⟨v.x / c, v.y / c, v.z / c⟩

/-- norm_squared / length_squared of the source vectors. -/
def Vec3.normSq (v : Vec3 α) : α := v.x * v.x + v.y * v.y + v.z * v.z

/-- Componentwise maximum (glam Vec3::max). -/
def Vec3.compMax (a b : Vec3 α) : Vec3 α := ⟨max a.x b.x, max a.y b.y, max a.z b.z⟩

/-- Componentwise minimum (glam Vec3::min). -/
def Vec3.compMin (a b : Vec3 α) : Vec3 α := ⟨min a.x b.x, min a.y b.y, min a.z b.z⟩

@[simp]
theorem Vec3.normSq_neg (v : Vec3 α) : (-v).normSq = v.normSq := by
  simp only [Vec3.neg_def, Vec3.normSq]; ring

@[simp]
theorem Vec3.divScalar_neg (v : Vec3 α) (c : α) :
    (-v).divScalar c = -(v.divScalar c) := by
  simp [Vec3.divScalar, neg_div]

theorem Vec3.smul_neg (c : α) (v : Vec3 α) : c • (-v) = -(c • v) := by
  simp

theorem Vec3.neg_neg (v : Vec3 α) : -(-v) = v := by
  ext <;> simp

theorem Vec3.normSq_divScalar (v : Vec3 α) (c : α) :
    (v.divScalar c).normSq = v.normSq / c ^ 2 := by
  simp only [Vec3.normSq, Vec3.divScalar]
  field_simp
  ring

/-- src/physics.rs: const R0: f64 = 0.15, the interaction length scale. -/
def R0 : α := 15 / 100

/-- src/physics.rs vdw_interaction: force and potential on pos_targ from
pos_other, a Lennard-Jones-family law with a hard cutoff at range, the
potential shifted to vanish at the cutoff and halved. -/
def vdw_interaction (pos_targ pos_other : Vec3 α) (range : α) : Vec3 α × α :=
  let r := pos_targ - pos_other
  let r_norm_sqr := r.normSq
  if range ^ 2 < r_norm_sqr then (0, 0)
  else
    let r_unit := r.divScalar R0
    let r_unit2 := r_unit.normSq
    let r_unit6 := r_unit2 ^ 3
    let r_unit8 := r_unit2 * r_unit6
    let r_unit12 := r_unit6 ^ 2
    let r_unit14 := r_unit6 * r_unit8
    let force := (24 * ((2 / r_unit14) - (1 / r_unit8))) • r_unit
    let range_unit := range / R0
    let range_unit6 := range_unit ^ 6
    let range_unit12 := range_unit6 ^ 2
    let free_potential := 4 * R0 * (1 / range_unit12) - (1 / range_unit6)
    let potential := 4 * R0 * (1 / r_unit12) - (1 / r_unit6)
    let potential_adjusted := (potential - free_potential) / 2
    (force, potential_adjusted)

/-- C8: the pairwise force of the default law is antisymmetric:
force(i, j, range) = -force(j, i, range) for every pair of positions and
every cutoff range (translation-only case). -/
theorem vdw_interaction_force_antisymmetric (pos1 pos2 : Vec3 ℚ) (range : ℚ) :
    (vdw_interaction pos1 pos2 range).1 = -((vdw_interaction pos2 pos1 range).1) := by
  have hsub : pos2 - pos1 = -(pos1 - pos2) := by
    ext <;> simp
  simp only [vdw_interaction, hsub, Vec3.normSq_neg, Vec3.divScalar_neg]
  split_ifs with h
  · simp
  · simp only [Vec3.smul_neg, Vec3.neg_neg]

/-- C4: the default law is zero beyond the cutoff (the squared separation
exceeding the squared range), and at separation exactly equal to the cutoff
the continuity-shifted, halved potential is exactly zero. -/
theorem vdw_interaction_cutoff (pos1 pos2 : Vec3 ℚ) (range : ℚ) (hr : 0 < range) :
    (range ^ 2 < (pos1 - pos2).normSq → vdw_interaction pos1 pos2 range = (0, 0)) ∧
    ((pos1 - pos2).normSq = range ^ 2 → (vdw_interaction pos1 pos2 range).2 = 0) := by
  constructor
  · intro h
    simp only [vdw_interaction, if_pos h]
  · intro h
    simp only [vdw_interaction, h, lt_irrefl, if_false, Vec3.normSq_divScalar]
    ring

/-- Witness for the cutoff theorem: at positions (3,0,0) and the origin with
range 3, the squared separation equals the squared range and the shifted
potential evaluates to zero. -/
theorem vdw_interaction_cutoff_witness :
    (vdw_interaction (⟨3, 0, 0⟩ : Vec3 ℚ) ⟨0, 0, 0⟩ 3).2 = 0 :=
  (vdw_interaction_cutoff ⟨3, 0, 0⟩ ⟨0, 0, 0⟩ 3 (by norm_num)).2 (by
    simp [Vec3.normSq]; norm_num)

/-- src/state/sim_space.rs Boundary: the six axis-aligned walls of the
simulation box; the lower corner is fixed at the origin, the upper corner
at (x, y, z). -/
@[ext]
structure Boundary (α : Type) where
  x : α
  y : α
  z : α
deriving DecidableEq, Repr

/-- Boundary::MIN_LEN = 2.0, the minimum length of each side of the box. -/
def Boundary.MIN_LEN : α := 2

/-- Boundary::DEFLECT_STR = 10000.0, the stiffness of the soft walls. -/
def Boundary.DEFLECT_STR : α := 10000

/-- Boundary::new, the default box. -/
def Boundary.new : Boundary α := ⟨5, 5, 5⟩

def Boundary.get_surface_area (b : Boundary α) : α :=
  (b.x * b.y + b.y * b.z + b.z * b.x) * 2

def Boundary.get_volume (b : Boundary α) : α := b.x * b.y * b.z

def Boundary.hi_corner (b : Boundary α) : Vec3 α := ⟨b.x, b.y, b.z⟩

def Boundary.lo_corner (_b : Boundary α) : Vec3 α := 0

def Boundary.center (b : Boundary α) : Vec3 α :=
  (b.hi_corner + b.lo_corner).divScalar 2

/-- Boundary::is_valid: every side at least MIN_LEN. -/
def Boundary.is_valid (b : Boundary α) : Prop :=
  Boundary.MIN_LEN ≤ b.x ∧ Boundary.MIN_LEN ≤ b.y ∧ Boundary.MIN_LEN ≤ b.z

/-- Boundary::bound_check: the penetration vector, pointing back into the
box; zero inside, componentwise max(lo - pos, 0) + min(hi - pos, 0). -/
def Boundary.bound_check (b : Boundary α) (pos : Vec3 α) : Vec3 α :=
  (b.lo_corner - pos).compMax 0 + (b.hi_corner - pos).compMin 0

/-- Boundary::contains_position: the penetration vector has zero squared
length. -/
def Boundary.contains_position (b : Boundary α) (pos : Vec3 α) : Prop :=
  (b.bound_check pos).normSq = 0

/-- Boundary::calculate_force_single: DEFLECT_STR times the penetration
vector. -/
def Boundary.calculate_force_single (b : Boundary α) (p : Vec3 α) : Vec3 α :=
  (Boundary.DEFLECT_STR : α) • b.bound_check p

/-- Boundary::calculate_force over a list of positions. -/
def Boundary.calculate_force (b : Boundary α) (ps : List (Vec3 α)) : List (Vec3 α) :=
  ps.map b.calculate_force_single

/-- Boundary::expand: grow each side by rate * dt, clamped below at
MIN_LEN. -/
def Boundary.expand (b : Boundary α) (rate dt : α) : Boundary α :=
  ⟨max (b.x + rate * dt) Boundary.MIN_LEN,
   max (b.y + rate * dt) Boundary.MIN_LEN,
   max (b.z + rate * dt) Boundary.MIN_LEN⟩

/-- C6: for every valid boundary the wall force is zero at every position
strictly inside the box, and a particle at (x + 1, y/2, z/2) feels exactly
(-DEFLECT_STR, 0, 0); the force is by definition DEFLECT_STR times the
penetration vector bound_check. -/
theorem Boundary.force_spec (b : Boundary ℚ) (hb : b.is_valid) :
    (∀ p : Vec3 ℚ, 0 < p.x → p.x < b.x → 0 < p.y → p.y < b.y → 0 < p.z → p.z < b.z →
        b.calculate_force_single p = 0) ∧
    b.calculate_force_single ⟨b.x + 1, b.y / 2, b.z / 2⟩ = ⟨-Boundary.DEFLECT_STR, 0, 0⟩ := by
  obtain ⟨hx, hy, hz⟩ := hb
  have h2 : (Boundary.MIN_LEN : ℚ) = 2 := rfl
  rw [h2] at hx hy hz
  constructor
  · intro p h1 hpx h3 hpy h5 hpz
    have e1 : max (0 - p.x) 0 = 0 := max_eq_right (by linarith)
    have e2 : max (0 - p.y) 0 = 0 := max_eq_right (by linarith)
    have e3 : max (0 - p.z) 0 = 0 := max_eq_right (by linarith)
    have f1 : min (b.x - p.x) 0 = 0 := min_eq_right (by linarith)
    have f2 : min (b.y - p.y) 0 = 0 := min_eq_right (by linarith)
    have f3 : min (b.z - p.z) 0 = 0 := min_eq_right (by linarith)
    simp only [Boundary.calculate_force_single, Boundary.bound_check, Boundary.lo_corner,
      Boundary.hi_corner, Vec3.compMax, Vec3.compMin, Vec3.zero_def, Vec3.sub_def,
      Vec3.add_def, Vec3.smul_def, e1, e2, e3, f1, f2, f3]
    norm_num
  · have gx : b.x - (b.x + 1) = -1 := by ring
    have gy : b.y - b.y / 2 = b.y / 2 := by ring
    have gz : b.z - b.z / 2 = b.z / 2 := by ring
    have e1 : max (0 - (b.x + 1)) 0 = 0 := max_eq_right (by linarith)
    have e2 : max (0 - b.y / 2) 0 = 0 := max_eq_right (by linarith)
    have e3 : max (0 - b.z / 2) 0 = 0 := max_eq_right (by linarith)
    have f1 : min (-1 : ℚ) 0 = -1 := min_eq_left (by norm_num)
    have f2 : min (b.y / 2) 0 = 0 := min_eq_right (by linarith)
    have f3 : min (b.z / 2) 0 = 0 := min_eq_right (by linarith)
    simp only [Boundary.calculate_force_single, Boundary.bound_check, Boundary.lo_corner,
      Boundary.hi_corner, Vec3.compMax, Vec3.compMin, Vec3.zero_def, Vec3.sub_def,
      Vec3.add_def, Vec3.smul_def, gx, gy, gz, e1, e2, e3, f1, f2, f3,
      Boundary.DEFLECT_STR]
    norm_num

/-- Witness for the boundary force theorem at the default 5 x 5 x 5 box. -/
theorem Boundary.force_spec_witness :
    (Boundary.new : Boundary ℚ).calculate_force_single
        ⟨(Boundary.new : Boundary ℚ).x + 1, (Boundary.new : Boundary ℚ).y / 2,
         (Boundary.new : Boundary ℚ).z / 2⟩ = ⟨-Boundary.DEFLECT_STR, 0, 0⟩ :=
  (Boundary.force_spec Boundary.new (by refine ⟨?_, ?_, ?_⟩ <;> norm_num [Boundary.new, Boundary.MIN_LEN])).2

/-- src/ring_buffer.rs RingBuffer: a VecDeque (front = oldest entry, back =
newest) together with a fixed capacity. -/
structure RingBuffer (β : Type) where
  data : List β
  capacity : ℕ
deriving DecidableEq, Repr

variable {β : Type}

/-- RingBuffer::with_capacity: empty deque. -/
def RingBuffer.with_capacity (β : Type) (capacity : ℕ) : RingBuffer β :=
  ⟨[], capacity⟩

/-- RingBuffer::push: push_back, then pop_front when the length has reached
the capacity, returning the evicted value. -/
def RingBuffer.push (rb : RingBuffer β) (val : β) : Option β × RingBuffer β :=
  let d := rb.data ++ [val]
  if d.length = rb.capacity then (d.head?, ⟨d.tail, rb.capacity⟩)
  else (none, ⟨d, rb.capacity⟩)

/-- RingBuffer::pop: pop_back, the newest value. -/
def RingBuffer.pop (rb : RingBuffer β) : Option β × RingBuffer β :=
  (rb.data.getLast?, ⟨rb.data.dropLast, rb.capacity⟩)

/-- RingBuffer::peak: the newest value. -/
def RingBuffer.peak (rb : RingBuffer β) : Option β := rb.data.getLast?

/-- RingBuffer::len. -/
def RingBuffer.len (rb : RingBuffer β) : ℕ := rb.data.length

/-- RingBuffer::elem. -/
def RingBuffer.elem (rb : RingBuffer β) (index : ℕ) : Option β :=
  if index < rb.len then rb.data.get? index else none

/-- A mutating ring buffer operation: push a value or pop the newest. -/
inductive RBOp (β : Type) where
  | push (val : β)
  | pop

/-- Apply one mutating operation to the buffer. -/
def RingBuffer.applyOp (rb : RingBuffer β) (op : RBOp β) : RingBuffer β :=
  match op with
  | .push v => (rb.push v).2
  | .pop => rb.pop.2

/-- Apply a sequence of mutating operations, oldest first. -/
def RingBuffer.applyOps (rb : RingBuffer β) (ops : List (RBOp β)) : RingBuffer β :=
  ops.foldl RingBuffer.applyOp rb

theorem RingBuffer.applyOp_invariant (K : ℕ) (rb : RingBuffer β) (op : RBOp β)
    (hc : rb.capacity = K) (hl : rb.len ≤ K - 1) (hK : 1 ≤ K) :
    (rb.applyOp op).capacity = K ∧ (rb.applyOp op).len ≤ K - 1 := by
  cases op with
  | push v =>
    simp only [RingBuffer.applyOp, RingBuffer.push]
    split_ifs with h
    · refine ⟨hc, ?_⟩
      simp only [RingBuffer.len, List.length_tail, List.length_append,
        List.length_singleton] at *
      omega
    · refine ⟨hc, ?_⟩
      simp only [RingBuffer.len, List.length_append, List.length_singleton] at *
      omega
  | pop =>
    refine ⟨hc, ?_⟩
    simp only [RingBuffer.applyOp, RingBuffer.pop, RingBuffer.len,
      List.length_dropLast] at *
    omega

theorem RingBuffer.applyOps_invariant (K : ℕ) (hK : 1 ≤ K) (ops : List (RBOp β)) :
    ∀ rb : RingBuffer β, rb.capacity = K → rb.len ≤ K - 1 →
      (rb.applyOps ops).capacity = K ∧ (rb.applyOps ops).len ≤ K - 1 := by
  induction ops with
  | nil => exact fun rb hc hl => ⟨hc, hl⟩
  | cons op rest ih =>
    intro rb hc hl
    have h := RingBuffer.applyOp_invariant K rb op hc hl hK
    exact ih (rb.applyOp op) h.1 h.2

/-- C10: a ring buffer created with capacity K at least 1 never holds more
than K - 1 elements after any sequence of push and pop operations (push
evicts the oldest entry as soon as the length reaches K), and push returns
an evicted value exactly when the pre-push length is K - 1. -/
theorem RingBuffer.len_le_capacity_sub_one (K : ℕ) (hK : 1 ≤ K)
    (ops : List (RBOp ℚ)) :
    ((RingBuffer.with_capacity ℚ K).applyOps ops).len ≤ K - 1 ∧
    (∀ (d : List ℚ) (v : ℚ),
      ((RingBuffer.mk d K).push v).1.isSome ↔ d.length + 1 = K) := by
  constructor
  · exact (RingBuffer.applyOps_invariant K hK ops (RingBuffer.with_capacity ℚ K)
      rfl (by simp [RingBuffer.with_capacity, RingBuffer.len])).2
  · intro d v
    simp only [RingBuffer.push, List.length_append, List.length_singleton]
    split_ifs with h
    · simp only [h, iff_true]
      cases d <;> simp
    · simpa using h

/-- Witness for the length bound: capacity 1, three operations, the buffer
is empty. -/
theorem RingBuffer.len_le_capacity_sub_one_witness :
    ((RingBuffer.with_capacity ℚ 1).applyOps
        [RBOp.push 5, RBOp.pop, RBOp.push 7]).len ≤ 1 - 1 :=
  (RingBuffer.len_le_capacity_sub_one 1 (by norm_num)
    [RBOp.push 5, RBOp.pop, RBOp.push 7]).1

/-- The last n entries of a list, the window a capacity bound keeps. -/
def lastN {γ : Type} (n : ℕ) (xs : List γ) : List γ := xs.drop (xs.length - n)

theorem lastN_length {γ : Type} (n : ℕ) (xs : List γ) :
    (lastN n xs).length = min xs.length n := by
  simp only [lastN, List.length_drop]
  omega

theorem lastN_of_length_le {γ : Type} (n : ℕ) (xs : List γ) (h : xs.length ≤ n) :
    lastN n xs = xs := by
  simp [lastN, Nat.sub_eq_zero_of_le h]

theorem lastN_append_singleton {γ : Type} (m : ℕ) (xs : List γ) (v : γ)
    (h : m ≤ xs.length) :
    lastN m (xs ++ [v]) = (lastN m xs ++ [v]).tail := by
  cases m with
  | zero =>
    have hdrop : xs.length - 0 = xs.length := rfl
    simp only [lastN, List.length_append, List.length_singleton]
    rw [List.drop_eq_nil_of_le (by simp), List.drop_eq_nil_of_le (by omega)]
    simp
  | succ n =>
    simp only [lastN, List.length_append, List.length_singleton]
    have h1 : xs.length + 1 - (n + 1) = xs.length - n := by omega
    have h2 : xs.length - n ≤ xs.length := by omega
    rw [h1, List.drop_append_of_le_length h2]
    have h3 : xs.drop (xs.length - (n + 1)) ≠ [] := by
      intro hnil
      have := congrArg List.length hnil
      simp only [List.length_drop, List.length_nil] at this
      omega
    obtain ⟨a, t, ht⟩ := List.exists_cons_of_ne_nil h3
    rw [ht]
    simp only [List.cons_append, List.tail_cons]
    have h5 : t = xs.drop (xs.length - n) := by
      have htail : (a :: t).tail = t := rfl
      rw [← htail, ← ht, List.tail_drop]
      congr 1
      omega
    rw [h5]

theorem headD_add_tail_sum (l : List ℚ) (h : l ≠ []) :
    l.head?.getD 0 + l.tail.sum = l.sum := by
  cases l with
  | nil => exact absurd rfl h
  | cons a t => simp

/-- src/state.rs Pressure: a ring buffer of per-frame impulse samples with
an incrementally maintained running sum and the time per data point. -/
structure Pressure (α : Type) where
  data : RingBuffer α
  sum_cache : α
  dt : α
deriving DecidableEq, Repr

/-- Pressure::new: empty buffer of the given capacity, zero sum. -/
def Pressure.new (capacity : ℕ) (dt : α) : Pressure α :=
  ⟨RingBuffer.with_capacity α capacity, 0, dt⟩

/-- Pressure::push_sample: push the value, subtract the evicted value (or
0.0) from the running sum and add the new value. -/
def Pressure.push_sample (p : Pressure α) (value : α) : Pressure α :=
  let r := p.data.push value
  { p with data := r.2, sum_cache := p.sum_cache - r.1.getD 0 + value }

/-- Pressure::get_pressure: the running sum divided by the buffer length
and by the per-sample dt. -/
def Pressure.get_pressure (p : Pressure α) : α :=
  p.sum_cache / (p.data.len : α) / p.dt

/-- Push a whole list of samples, oldest first. -/
def Pressure.push_samples (p : Pressure α) (vs : List α) : Pressure α :=
  vs.foldl Pressure.push_sample p

theorem Pressure.push_samples_state (K : ℕ) (dt : ℚ) (hK : 1 ≤ K) (vs : List ℚ) :
    ((Pressure.new K dt).push_samples vs).data.data = lastN (K - 1) vs ∧
    ((Pressure.new K dt).push_samples vs).sum_cache = (lastN (K - 1) vs).sum ∧
    ((Pressure.new K dt).push_samples vs).data.capacity = K ∧
    ((Pressure.new K dt).push_samples vs).dt = dt := by
  induction vs using List.reverseRecOn with
  | nil =>
    simp [Pressure.push_samples, Pressure.new, RingBuffer.with_capacity, lastN]
  | append_singleton xs v ih =>
    obtain ⟨ihdata, ihsum, ihcap, ihdt⟩ := ih
    have hfold : (Pressure.new K dt).push_samples (xs ++ [v])
        = ((Pressure.new K dt).push_samples xs).push_sample v := by
      simp [Pressure.push_samples, List.foldl_append]
    set p := (Pressure.new K dt).push_samples xs with hp
    have hlen : p.data.data.length = min xs.length (K - 1) := by
      rw [ihdata, lastN_length]
    rw [hfold]
    simp only [Pressure.push_sample, RingBuffer.push]
    by_cases hc : (p.data.data ++ [v]).length = p.data.capacity
    · -- eviction: the window was already full
      have hx : K - 1 ≤ xs.length := by
        rw [List.length_append, List.length_singleton, hlen, ihcap] at hc
        omega
      rw [if_pos hc]
      have hdata2 : (p.data.data ++ [v]).tail = lastN (K - 1) (xs ++ [v]) := by
        rw [ihdata, lastN_append_singleton (K - 1) xs v hx]
      have hne : p.data.data ++ [v] ≠ [] := by simp
      have hsum2 : p.sum_cache - (p.data.data ++ [v]).head?.getD 0 + v
          = (lastN (K - 1) (xs ++ [v])).sum := by
        have hh := headD_add_tail_sum (p.data.data ++ [v]) hne
        rw [← hdata2]
        rw [ihsum, ← ihdata]
        have : (p.data.data ++ [v]).sum = p.data.data.sum + v := by simp
        linarith
      exact ⟨hdata2, hsum2, ihcap, ihdt⟩
    · -- no eviction: the window still grows
      have hx : xs.length < K - 1 := by
        rw [List.length_append, List.length_singleton, hlen, ihcap] at hc
        omega
      rw [if_neg hc]
      have hxs : lastN (K - 1) xs = xs := lastN_of_length_le _ _ (by omega)
      have hall : lastN (K - 1) (xs ++ [v]) = xs ++ [v] :=
        lastN_of_length_le _ _ (by simp; omega)
      refine ⟨?_, ?_, ihcap, ihdt⟩
      · rw [ihdata, hxs, hall]
      · rw [ihsum, hxs, hall]
        simp

/-- C1 (amended): pushing at least K + 5 samples into a capacity-K pressure
sampler (K at least 2, per-sample interval dt) makes get_pressure return
the arithmetic mean of the last K - 1 pushed values divided by dt: the
buffer holds a window of K - 1 samples (not K), and the running sum is
divided by that window length. -/
theorem Pressure.get_pressure_window_mean (K : ℕ) (dt : ℚ) (vs : List ℚ)
    (hK : 2 ≤ K) (hdt : 0 < dt) (hN : K + 5 ≤ vs.length) :
    ((Pressure.new K dt).push_samples vs).get_pressure
      = (lastN (K - 1) vs).sum / ((lastN (K - 1) vs).length : ℚ) / dt ∧
    (lastN (K - 1) vs).length = K - 1 := by
  obtain ⟨hdata, hsum, hcap, hdt2⟩ :=
    Pressure.push_samples_state K dt (by omega) vs
  constructor
  · simp only [Pressure.get_pressure, RingBuffer.len, hdata, hsum, hdt2]
  · rw [lastN_length]
    omega

/-- Witness for the window mean theorem at K = 3, dt = 1 and eight samples:
the sampler retains the last two values 7 and 8. -/
theorem Pressure.get_pressure_window_mean_witness :
    ((Pressure.new 3 (1 : ℚ)).push_samples [1, 2, 3, 4, 5, 6, 7, 8]).get_pressure
      = (lastN (3 - 1) [(1 : ℚ), 2, 3, 4, 5, 6, 7, 8]).sum
        / ((lastN (3 - 1) [(1 : ℚ), 2, 3, 4, 5, 6, 7, 8]).length : ℚ) / 1 :=
  (Pressure.get_pressure_window_mean 3 1 [1, 2, 3, 4, 5, 6, 7, 8]
    (by norm_num) (by norm_num) (by norm_num)).1

/-- C1 counterexample: with capacity K = 2, dt = 1 and the N = K + 5 = 7
samples 1..7, get_pressure returns 7 (the one retained sample divided by
its window length 1 and by dt), not 13/2, the mean of the last K = 2
pushed values divided by dt, as the claim states. -/
theorem Pressure.get_pressure_not_capacity_mean :
    ¬(((Pressure.new 2 (1 : ℚ)).push_samples [1, 2, 3, 4, 5, 6, 7]).get_pressure
        = (lastN 2 [(1 : ℚ), 2, 3, 4, 5, 6, 7]).sum
          / ((lastN 2 [(1 : ℚ), 2, 3, 4, 5, 6, 7]).length : ℚ) / 1) := by
  obtain ⟨hdata, hsum, hcap, hdt2⟩ :=
    Pressure.push_samples_state 2 1 (by norm_num) [1, 2, 3, 4, 5, 6, 7]
  simp only [Pressure.get_pressure, RingBuffer.len, hdata, hsum, hdt2]
  norm_num [lastN]

/-- src/state/sim_space.rs Grid: the interaction reach in whole cells and
the cell edge length. -/
structure Grid (α : Type) where
  reach : ℕ
  unit_size : α
deriving DecidableEq, Repr

/-- Grid::new. -/
def Grid.new (unit_size : α) (reach : ℕ) : Grid α := ⟨reach, unit_size⟩

variable [FloorRing α]

/-- Grid::find_grid_location: floor of each coordinate divided by the cell
size. -/
def Grid.find_grid_location (g : Grid α) (p : Vec3 α) : ℤ × ℤ × ℤ :=
  (⌊p.x / g.unit_size⌋, ⌊p.y / g.unit_size⌋, ⌊p.z / g.unit_size⌋)

/-- std::isize::MAX, the fold seed make_grid uses to find the least cell
index on each axis. -/
def INIT_MIN : ℤ := 2 ^ 63 - 1

/-- make_grid, first fold: the componentwise least cell index. -/
def minLoc (locs : List (ℤ × ℤ × ℤ)) : ℤ × ℤ × ℤ :=
  locs.foldl
    (fun acc l => (min acc.1 l.1, min acc.2.1 l.2.1, min acc.2.2 l.2.2))
    (INIT_MIN, INIT_MIN, INIT_MIN)

/-- make_grid: cell coordinates translated so the least index on each axis
is at 0 (the isize-to-usize casts of the source). -/
def Grid.rebasedLocations (g : Grid α) (ps : List (Vec3 α)) : List (ℕ × ℕ × ℕ) :=
  let grid_locations := ps.map g.find_grid_location
  let m := minLoc grid_locations
  grid_locations.map fun l =>
    ((l.1 - m.1).toNat, (l.2.1 - m.2.1).toNat, (l.2.2 - m.2.2).toNat)

/-- make_grid, second fold: the componentwise greatest rebased index
(seed usize::MIN = 0). -/
def maxLoc (locs : List (ℕ × ℕ × ℕ)) : ℕ × ℕ × ℕ :=
  locs.foldl
    (fun acc l => (max acc.1 l.1, max acc.2.1 l.2.1, max acc.2.2 l.2.2))
    (0, 0, 0)

/-- The dimensions of the dense Array3 built by make_grid. -/
def Grid.dims (g : Grid α) (ps : List (Vec3 α)) : ℕ × ℕ × ℕ :=
  let m := maxLoc (g.rebasedLocations ps)
  (m.1 + 1, m.2.1 + 1, m.2.2 + 1)

/-- The contents of one cell of the Array3 built by make_grid: the indices
of the particles whose rebased location is that cell, ascending (make_grid
pushes indices in order). -/
def cellParticles (rlocs : List (ℕ × ℕ × ℕ)) (loc : ℕ × ℕ × ℕ) : List ℕ :=
  (List.range rlocs.length).filter fun i => decide (rlocs.getD i (0, 0, 0) = loc)

/-- One axis of Grid::generate_neighbor_grid_loc: the saturating range
c - reach ..= c + reach, keeping only indices below the axis dimension
(clipped to grid bounds, no wraparound). -/
def axisRange (c reach dim : ℕ) : List ℕ :=
  (List.range' (c - reach) (c + reach + 1 - (c - reach))).filter
    fun v => decide (v < dim)

/-- Grid::generate_neighbor_grid_loc: the cartesian product of the three
clipped axis ranges (the iproduct of the source). -/
def Grid.generate_neighbor_grid_loc (g : Grid α) (loc dims : ℕ × ℕ × ℕ) :
    List (ℕ × ℕ × ℕ) :=
  (axisRange loc.1 g.reach dims.1).flatMap fun a =>
    (axisRange loc.2.1 g.reach dims.2.1).flatMap fun b =>
      (axisRange loc.2.2 g.reach dims.2.2).map fun c => (a, b, c)

/-- The particle ids Grid::calculate_force_single iterates over for the
target tpid: every id stored in a cell within reach of the target cell,
with the target itself filtered out. -/
def Grid.relevantParticles (g : Grid α) (ps : List (Vec3 α)) (tpid : ℕ) : List ℕ :=
  let rlocs := g.rebasedLocations ps
  ((g.generate_neighbor_grid_loc (rlocs.getD tpid (0, 0, 0)) (g.dims ps)).flatMap
      (cellParticles rlocs)).filter fun pid => decide (pid ≠ tpid)

/-- The neighbor flag of the pairwise law: 1 when the squared separation is
below 4 * R0 ^ 2 (the neighbor_threshold of src/state/physics.rs), used
only for display classification. -/
def vdw_neighbor_flag (pos_targ pos_other : Vec3 α) : ℕ :=
  if (pos_targ - pos_other).normSq < 4 * R0 ^ 2 then 1 else 0

/-- Grid::calculate_force_single: sum force, potential and neighbor count
of the pairwise law over the relevant particles, with the cutoff
range = unit_size * reach.  The law is the default translation-only law
vdw_interaction of src/physics.rs (the specification names it the default;
the anisotropic variant of src/state/physics.rs depends on a pose type
absent from the source tree). -/
def Grid.calculate_force_single (g : Grid α) (ps : List (Vec3 α)) (tpid : ℕ) :
    Vec3 α × α × ℕ :=
  (g.relevantParticles ps tpid).foldl
    (fun acc pid =>
      let range := g.unit_size * (g.reach : α)
      let r := vdw_interaction (ps.getD tpid 0) (ps.getD pid 0) range
      (acc.1 + r.1, acc.2.1 + r.2,
        acc.2.2 + vdw_neighbor_flag (ps.getD tpid 0) (ps.getD pid 0)))
    (0, 0, 0)

/-- Grid::calculate_force: the per-particle force, potential energy and
neighbor count lists. -/
def Grid.calculate_force (g : Grid α) (ps : List (Vec3 α)) :
    List (Vec3 α) × List α × List ℕ :=
  let singles := (List.range ps.length).map (g.calculate_force_single ps)
  (singles.map (fun s => s.1), singles.map (fun s => s.2.1),
    singles.map (fun s => s.2.2))

theorem minLoc_le_mem (locs : List (ℤ × ℤ × ℤ)) :
    ∀ (seed l : ℤ × ℤ × ℤ), l ∈ locs →
      ((locs.foldl
          (fun acc t => (min acc.1 t.1, min acc.2.1 t.2.1, min acc.2.2 t.2.2))
          seed).1 ≤ l.1 ∧
       (locs.foldl
          (fun acc t => (min acc.1 t.1, min acc.2.1 t.2.1, min acc.2.2 t.2.2))
          seed).2.1 ≤ l.2.1 ∧
       (locs.foldl
          (fun acc t => (min acc.1 t.1, min acc.2.1 t.2.1, min acc.2.2 t.2.2))
          seed).2.2 ≤ l.2.2) := by
  have hseed : ∀ (locs' : List (ℤ × ℤ × ℤ)) (seed : ℤ × ℤ × ℤ),
      ((locs'.foldl
          (fun acc t => (min acc.1 t.1, min acc.2.1 t.2.1, min acc.2.2 t.2.2))
          seed).1 ≤ seed.1 ∧
       (locs'.foldl
          (fun acc t => (min acc.1 t.1, min acc.2.1 t.2.1, min acc.2.2 t.2.2))
          seed).2.1 ≤ seed.2.1 ∧
       (locs'.foldl
          (fun acc t => (min acc.1 t.1, min acc.2.1 t.2.1, min acc.2.2 t.2.2))
          seed).2.2 ≤ seed.2.2) := by
    intro locs'
    induction locs' with
    | nil => intro seed; exact ⟨le_refl _, le_refl _, le_refl _⟩
    | cons a t ih =>
      intro seed
      obtain ⟨h1, h2, h3⟩ := ih (min seed.1 a.1, min seed.2.1 a.2.1, min seed.2.2 a.2.2)
      exact ⟨le_trans h1 (min_le_left _ _), le_trans h2 (min_le_left _ _),
        le_trans h3 (min_le_left _ _)⟩
  induction locs with
  | nil => intro seed l hl; cases hl
  | cons a t ih =>
    intro seed l hl
    cases hl with
    | head =>
      obtain ⟨h1, h2, h3⟩ :=
        hseed t (min seed.1 a.1, min seed.2.1 a.2.1, min seed.2.2 a.2.2)
      exact ⟨le_trans h1 (min_le_right _ _), le_trans h2 (min_le_right _ _),
        le_trans h3 (min_le_right _ _)⟩
    | tail _ hmem => exact ih _ l hmem

theorem le_maxLoc_mem (locs : List (ℕ × ℕ × ℕ)) :
    ∀ (seed l : ℕ × ℕ × ℕ), l ∈ locs →
      (l.1 ≤ (locs.foldl
          (fun acc t => (max acc.1 t.1, max acc.2.1 t.2.1, max acc.2.2 t.2.2))
          seed).1 ∧
       l.2.1 ≤ (locs.foldl
          (fun acc t => (max acc.1 t.1, max acc.2.1 t.2.1, max acc.2.2 t.2.2))
          seed).2.1 ∧
       l.2.2 ≤ (locs.foldl
          (fun acc t => (max acc.1 t.1, max acc.2.1 t.2.1, max acc.2.2 t.2.2))
          seed).2.2) := by
  have hseed : ∀ (locs' : List (ℕ × ℕ × ℕ)) (seed : ℕ × ℕ × ℕ),
      (seed.1 ≤ (locs'.foldl
          (fun acc t => (max acc.1 t.1, max acc.2.1 t.2.1, max acc.2.2 t.2.2))
          seed).1 ∧
       seed.2.1 ≤ (locs'.foldl
          (fun acc t => (max acc.1 t.1, max acc.2.1 t.2.1, max acc.2.2 t.2.2))
          seed).2.1 ∧
       seed.2.2 ≤ (locs'.foldl
          (fun acc t => (max acc.1 t.1, max acc.2.1 t.2.1, max acc.2.2 t.2.2))
          seed).2.2) := by
    intro locs'
    induction locs' with
    | nil => intro seed; exact ⟨le_refl _, le_refl _, le_refl _⟩
    | cons a t ih =>
      intro seed
      obtain ⟨h1, h2, h3⟩ := ih (max seed.1 a.1, max seed.2.1 a.2.1, max seed.2.2 a.2.2)
      exact ⟨le_trans (le_max_left _ _) h1, le_trans (le_max_left _ _) h2,
        le_trans (le_max_left _ _) h3⟩
  induction locs with
  | nil => intro seed l hl; cases hl
  | cons a t ih =>
    intro seed l hl
    cases hl with
    | head =>
      obtain ⟨h1, h2, h3⟩ :=
        hseed t (max seed.1 a.1, max seed.2.1 a.2.1, max seed.2.2 a.2.2)
      exact ⟨le_trans (le_max_right _ _) h1, le_trans (le_max_right _ _) h2,
        le_trans (le_max_right _ _) h3⟩
    | tail _ hmem => exact ih _ l hmem

theorem abs_floor_sub_le (a b : ℚ) (n : ℕ) (h : |a - b| ≤ (n : ℚ)) :
    |⌊a⌋ - ⌊b⌋| ≤ (n : ℤ) := by
  rw [abs_le] at h ⊢
  obtain ⟨h1, h2⟩ := h
  have hb : ⌊b⌋ ≤ ⌊a + ((n : ℤ) : ℚ)⌋ := Int.floor_le_floor (by push_cast; linarith)
  have ha : ⌊a⌋ ≤ ⌊b + ((n : ℤ) : ℚ)⌋ := Int.floor_le_floor (by push_cast; linarith)
  rw [Int.floor_add_int] at hb ha
  omega

theorem abs_component_le_of_normSq_le (v : Vec3 ℚ) (c : ℚ) (hc : 0 ≤ c)
    (h : v.normSq ≤ c ^ 2) : |v.x| ≤ c ∧ |v.y| ≤ c ∧ |v.z| ≤ c := by
  simp only [Vec3.normSq] at h
  refine ⟨abs_le.mpr ⟨?_, ?_⟩, abs_le.mpr ⟨?_, ?_⟩, abs_le.mpr ⟨?_, ?_⟩⟩ <;>
    nlinarith [sq_nonneg v.x, sq_nonneg v.y, sq_nonneg v.z, sq_nonneg (v.x + c),
      sq_nonneg (v.x - c), sq_nonneg (v.y + c), sq_nonneg (v.y - c),
      sq_nonneg (v.z + c), sq_nonneg (v.z - c)]

theorem mem_axisRange (v c r dim : ℕ) :
    v ∈ axisRange c r dim ↔ (c - r ≤ v ∧ v < c + r + 1 ∧ v < dim) := by
  simp only [axisRange, List.mem_filter, List.mem_range'_1, decide_eq_true_eq]
  constructor
  · rintro ⟨⟨h1, h2⟩, h3⟩
    exact ⟨h1, by omega, h3⟩
  · rintro ⟨h1, h2, h3⟩
    exact ⟨⟨h1, by omega⟩, h3⟩

theorem mem_generate_neighbor_grid_loc (g : Grid ℚ) (loc dims l : ℕ × ℕ × ℕ) :
    l ∈ g.generate_neighbor_grid_loc loc dims ↔
      (l.1 ∈ axisRange loc.1 g.reach dims.1 ∧
       l.2.1 ∈ axisRange loc.2.1 g.reach dims.2.1 ∧
       l.2.2 ∈ axisRange loc.2.2 g.reach dims.2.2) := by
  obtain ⟨a, b, c⟩ := l
  simp only [Grid.generate_neighbor_grid_loc, List.mem_flatMap, List.mem_map,
    Prod.mk.injEq]
  constructor
  · rintro ⟨x, hx, y, hy, z, hz, rfl, rfl, rfl⟩
    exact ⟨hx, hy, hz⟩
  · rintro ⟨ha, hb, hc⟩
    exact ⟨a, ha, b, hb, c, hc, rfl, rfl, rfl⟩

theorem mem_cellParticles (rlocs : List (ℕ × ℕ × ℕ)) (loc : ℕ × ℕ × ℕ) (k : ℕ) :
    k ∈ cellParticles rlocs loc ↔ (k < rlocs.length ∧ rlocs.getD k (0, 0, 0) = loc) := by
  simp only [cellParticles, List.mem_filter, List.mem_range, decide_eq_true_eq]

theorem getD_map_lt {γ δ : Type} (f : γ → δ) (l : List γ) (k : ℕ) (dc : γ)
    (dd : δ) (hk : k < l.length) : (l.map f).getD k dd = f (l.getD k dc) := by
  rw [List.getD_eq_getElem _ _ (by simpa using hk), List.getD_eq_getElem _ _ hk,
    List.getElem_map]

theorem getD_mem_lt {γ : Type} (l : List γ) (k : ℕ) (d : γ) (hk : k < l.length) :
    l.getD k d ∈ l := by
  rw [List.getD_eq_getElem _ _ hk]
  exact List.getElem_mem hk

theorem minLoc_le (locs : List (ℤ × ℤ × ℤ)) (l : ℤ × ℤ × ℤ) (hl : l ∈ locs) :
    (minLoc locs).1 ≤ l.1 ∧ (minLoc locs).2.1 ≤ l.2.1 ∧ (minLoc locs).2.2 ≤ l.2.2 :=
  minLoc_le_mem locs (INIT_MIN, INIT_MIN, INIT_MIN) l hl

theorem le_maxLoc (locs : List (ℕ × ℕ × ℕ)) (l : ℕ × ℕ × ℕ) (hl : l ∈ locs) :
    l.1 ≤ (maxLoc locs).1 ∧ l.2.1 ≤ (maxLoc locs).2.1 ∧ l.2.2 ≤ (maxLoc locs).2.2 :=
  le_maxLoc_mem locs (0, 0, 0) l hl

/-- C5: with a positive cell size and the physical cutoff of the grid
(unit_size * reach) upper-bounding the interaction cutoff, the pairs of
distinct particles the grid neighbor search visits that lie within the
cutoff are exactly the pairs within the cutoff of the brute-force
all-pairs distance check: the grid approximation misses no in-range
pair. -/
theorem grid_neighbor_search_equiv (g : Grid ℚ) (ps : List (Vec3 ℚ)) (cutoff : ℚ)
    (i j : ℕ) (hu : 0 < g.unit_size) (hc0 : 0 ≤ cutoff)
    (hc : cutoff ≤ g.unit_size * (g.reach : ℚ))
    (hi : i < ps.length) (hj : j < ps.length) :
    (j ∈ g.relevantParticles ps i ∧
        (ps.getD i 0 - ps.getD j 0).normSq ≤ cutoff ^ 2)
      ↔ (j ≠ i ∧ (ps.getD i 0 - ps.getD j 0).normSq ≤ cutoff ^ 2) := by
  constructor
  · rintro ⟨hmem, hcut⟩
    refine ⟨?_, hcut⟩
    simp only [Grid.relevantParticles, List.mem_filter, decide_eq_true_eq] at hmem
    exact hmem.2
  · rintro ⟨hne, hcut⟩
    refine ⟨?_, hcut⟩
    simp only [Grid.relevantParticles, List.mem_filter, decide_eq_true_eq]
    refine ⟨?_, hne⟩
    have hlenr : (g.rebasedLocations ps).length = ps.length := by
      simp [Grid.rebasedLocations]
    -- the rebased location of an in-bounds particle, in integer form
    have hrloc : ∀ k, k < ps.length →
        (g.rebasedLocations ps).getD k (0, 0, 0)
          = (((g.find_grid_location (ps.getD k 0)).1
                - (minLoc (ps.map g.find_grid_location)).1).toNat,
             ((g.find_grid_location (ps.getD k 0)).2.1
                - (minLoc (ps.map g.find_grid_location)).2.1).toNat,
             ((g.find_grid_location (ps.getD k 0)).2.2
                - (minLoc (ps.map g.find_grid_location)).2.2).toNat) := by
      intro k hk
      simp only [Grid.rebasedLocations]
      rw [getD_map_lt _ _ _ (0, 0, 0) _ (by simpa using hk),
        getD_map_lt _ _ _ 0 _ hk]
    have hmle : ∀ k, k < ps.length →
        (minLoc (ps.map g.find_grid_location)).1
            ≤ (g.find_grid_location (ps.getD k 0)).1 ∧
        (minLoc (ps.map g.find_grid_location)).2.1
            ≤ (g.find_grid_location (ps.getD k 0)).2.1 ∧
        (minLoc (ps.map g.find_grid_location)).2.2
            ≤ (g.find_grid_location (ps.getD k 0)).2.2 := by
      intro k hk
      have hmem2 : g.find_grid_location (ps.getD k 0) ∈ ps.map g.find_grid_location := by
        rw [← getD_map_lt g.find_grid_location ps k 0 (0, 0, 0) hk]
        exact getD_mem_lt _ _ _ (by simpa using hk)
      exact minLoc_le _ _ hmem2
    -- per-axis cell distance bound from the cutoff
    have habs := abs_component_le_of_normSq_le (ps.getD i 0 - ps.getD j 0) cutoff hc0 hcut
    have hdiv : ∀ a b : ℚ, |a - b| ≤ cutoff →
        |⌊a / g.unit_size⌋ - ⌊b / g.unit_size⌋| ≤ (g.reach : ℤ) := by
      intro a b hab
      apply abs_floor_sub_le
      rw [div_sub_div_same, abs_div, abs_of_pos hu]
      rw [div_le_iff hu]
      calc |a - b| ≤ cutoff := hab
        _ ≤ g.unit_size * (g.reach : ℚ) := hc
        _ = (g.reach : ℚ) * g.unit_size := mul_comm _ _
    have hsubx : (ps.getD i 0 - ps.getD j 0).x = (ps.getD i 0).x - (ps.getD j 0).x := rfl
    have hsuby : (ps.getD i 0 - ps.getD j 0).y = (ps.getD i 0).y - (ps.getD j 0).y := rfl
    have hsubz : (ps.getD i 0 - ps.getD j 0).z = (ps.getD i 0).z - (ps.getD j 0).z := rfl
    have hax : |(g.find_grid_location (ps.getD i 0)).1
        - (g.find_grid_location (ps.getD j 0)).1| ≤ (g.reach : ℤ) :=
      hdiv _ _ (by rw [← hsubx]; exact habs.1)
    have hay : |(g.find_grid_location (ps.getD i 0)).2.1
        - (g.find_grid_location (ps.getD j 0)).2.1| ≤ (g.reach : ℤ) :=
      hdiv _ _ (by rw [← hsuby]; exact habs.2.1)
    have haz : |(g.find_grid_location (ps.getD i 0)).2.2
        - (g.find_grid_location (ps.getD j 0)).2.2| ≤ (g.reach : ℤ) :=
      hdiv _ _ (by rw [← hsubz]; exact habs.2.2)
    -- the rebased location of j is in bounds
    have hjmem : (g.rebasedLocations ps).getD j (0, 0, 0) ∈ g.rebasedLocations ps :=
      getD_mem_lt _ _ _ (by omega)
    have hjmax := le_maxLoc _ _ hjmem
    have hdims : g.dims ps = ((maxLoc (g.rebasedLocations ps)).1 + 1,
        (maxLoc (g.rebasedLocations ps)).2.1 + 1,
        (maxLoc (g.rebasedLocations ps)).2.2 + 1) := rfl
    -- assemble membership
    rw [List.mem_flatMap]
    refine ⟨(g.rebasedLocations ps).getD j (0, 0, 0), ?_, ?_⟩
    · rw [mem_generate_neighbor_grid_loc]
      obtain ⟨hmi1, hmi2, hmi3⟩ := hmle i hi
      obtain ⟨hmj1, hmj2, hmj3⟩ := hmle j hj
      rw [abs_le] at hax hay haz
      rw [hrloc i hi, hrloc j hj]
      rw [hrloc j hj] at hjmax
      dsimp only at hjmax
      refine ⟨?_, ?_, ?_⟩ <;> rw [mem_axisRange] <;> rw [hdims] <;> dsimp only
      · refine ⟨?_, ?_, ?_⟩ <;> omega
      · refine ⟨?_, ?_, ?_⟩ <;> omega
      · refine ⟨?_, ?_, ?_⟩ <;> omega
    · rw [mem_cellParticles]
      exact ⟨by omega, rfl⟩

/-- Witness for the neighbor-search equivalence: two particles half a cell
apart in a grid of unit size 1 and reach 1. -/
theorem grid_neighbor_search_equiv_witness :
    ((1 : ℕ) ∈ (Grid.new (1 : ℚ) 1).relevantParticles
          [⟨0, 0, 0⟩, ⟨1 / 2, 0, 0⟩] 0 ∧
        (([⟨0, 0, 0⟩, ⟨1 / 2, 0, 0⟩] : List (Vec3 ℚ)).getD 0 0
            - ([⟨0, 0, 0⟩, ⟨1 / 2, 0, 0⟩] : List (Vec3 ℚ)).getD 1 0).normSq
          ≤ (1 : ℚ) ^ 2)
      ↔ ((1 : ℕ) ≠ 0 ∧
        (([⟨0, 0, 0⟩, ⟨1 / 2, 0, 0⟩] : List (Vec3 ℚ)).getD 0 0
            - ([⟨0, 0, 0⟩, ⟨1 / 2, 0, 0⟩] : List (Vec3 ℚ)).getD 1 0).normSq
          ≤ (1 : ℚ) ^ 2) :=
  grid_neighbor_search_equiv (Grid.new 1 1) [⟨0, 0, 0⟩, ⟨1 / 2, 0, 0⟩] 1 0 1
    (by norm_num [Grid.new]) (by norm_num) (by norm_num [Grid.new]) (by norm_num)
    (by norm_num)

/-- src/state/particle.rs Particle (mass, position, velocity), extended
with the neighbor count that src/state.rs stores on its particles; the
particle variant carrying that count is absent from the source tree
(spec section 3 lists neighbor_count on the particle record). -/
structure Particle (α : Type) where
  mass : α
  pos : Vec3 α
  vel : Vec3 α
  neighbors : ℕ
deriving DecidableEq, Repr

/-- Particle::new: mass 1, at the origin, resting. -/
def Particle.new : Particle α := ⟨1, 0, 0, 0⟩

/-- Particle::set_mass. -/
def Particle.set_mass (pt : Particle α) (mass : α) : Particle α :=
  { pt with mass := mass }

/-- Particle::set_pos. -/
def Particle.set_pos (pt : Particle α) (pos : Vec3 α) : Particle α :=
  { pt with pos := pos }

/-- Particle::set_vel. -/
def Particle.set_vel (pt : Particle α) (vel : Vec3 α) : Particle α :=
  { pt with vel := vel }

/-- Particle::step_pos: pos += coeff * dt * vel. -/
def Particle.step_pos (pt : Particle α) (dt coeff : α) : Particle α :=
  { pt with pos := pt.pos + (coeff * dt) • pt.vel }

/-- Particle::step_vel: vel += coeff * dt * acc. -/
def Particle.step_vel (pt : Particle α) (acc : Vec3 α) (dt coeff : α) : Particle α :=
  { pt with vel := pt.vel + (coeff * dt) • acc }

/-- Modelled from the spec: Particle::heat is called by the step of
src/state.rs but is absent from the source tree; spec section 4.3 step 4
gives velocity += velocity * heat_injection_amount * dt. -/
def Particle.heat (pt : Particle α) (dt amount : α) : Particle α :=
  { pt with vel := pt.vel + (amount * dt) • pt.vel }

/-- src/state/error.rs ErrorKind, together with the StepsPerFrame kind
that SimulationPrototype::compile pushes (the error enum in the source
tree predates the steps_per_frame check and lacks that variant). -/
inductive ErrorKind where
  | Bound
  | ExtT
  | ExtCond
  | UnitSize
  | Reach
  | Dt
  | StepsPerFrame
  | Particle
deriving DecidableEq, Repr

/-- src/state/error.rs InvalidParamError: the aggregated list of violated
constraint kinds. -/
structure InvalidParamError where
  errors : List ErrorKind
deriving DecidableEq, Repr

/-- src/state.rs Energy. -/
structure Energy (α : Type) where
  kinetic : α
  potential : α
deriving DecidableEq, Repr

/-- src/state.rs PressurePinned: setpoint and edge-detection flag of the
pressure-pinning controller. -/
structure PressurePinned (α : Type) where
  previous_state : Bool
  is_pinned : Bool
  at_value : α
deriving DecidableEq, Repr

/-- src/state.rs History: ring buffers of past energy and pressure. -/
structure History (α : Type) where
  energy : RingBuffer (Energy α)
  pressure : RingBuffer α
deriving DecidableEq, Repr

/-- History::with_capacity. -/
def History.with_capacity (capacity : ℕ) : History α :=
  ⟨RingBuffer.with_capacity _ capacity, RingBuffer.with_capacity _ capacity⟩

/-- src/state.rs SimulationState: all simulation parameters, particle data
and measurements. -/
structure SimulationState (α : Type) where
  particles : List (Particle α)
  bound : Boundary α
  grid : Grid α
  bound_rate : α
  target_temp : α
  inject_rate : α
  heat_injection_ammount : α
  pressure_pinned : PressurePinned α
  dt : α
  steps_per_frame : ℕ
  ext_accel : Vec3 α
  steps : ℕ
  energy : Energy α
  pressure : Pressure α
  impulse_accumultor : α
  history : History α
deriving DecidableEq, Repr

/-- src/state.rs VDWSimulation: the plugin wrapping the compiled state. -/
structure VDWSimulation (α : Type) where
  resources : SimulationState α
deriving DecidableEq, Repr

/-- VDWSimulation::PRESSURE_SAMPLING_PERIOD = 5.0. -/
def PRESSURE_SAMPLING_PERIOD : α := 5

/-- VDWSimulation::new: the initial state; the pressure window capacity is
(PRESSURE_SAMPLING_PERIOD / dt / steps_per_frame) as usize (for a
nonnegative value the float-to-usize cast is the floor, negative values
cast to 0: Int.toNat of the floor). -/
def VDWSimulation.new (particles : List (Particle α)) (bound : Boundary α)
    (grid : Grid α) (dt : α) (steps_per_frame : ℕ) (ext_accel : Vec3 α) :
    VDWSimulation α :=
  ⟨{ particles := particles
     bound := bound
     grid := grid
     bound_rate := 0
     target_temp := 0
     inject_rate := 0
     heat_injection_ammount := 0
     pressure_pinned := ⟨false, false, 1 / 2⟩
     dt := dt
     steps_per_frame := steps_per_frame
     ext_accel := ext_accel
     steps := 0
     energy := ⟨0, 0⟩
     pressure := Pressure.new
       (⌊PRESSURE_SAMPLING_PERIOD / dt / (steps_per_frame : α)⌋.toNat)
       (dt * (steps_per_frame : α))
     impulse_accumultor := 0
     history := History.with_capacity 1000 }⟩

/-- src/state.rs SimulationPrototype: the builder holding all initial
conditions. -/
structure SimulationPrototype (α : Type) where
  bound : Boundary α
  grid_unit_size : α
  grid_reach : ℕ
  dt : α
  steps_per_frame : ℕ
  ext_a : Vec3 α
  particles : List (Particle α)
deriving DecidableEq, Repr

/-- SimulationPrototype::new, the default settings. -/
def SimulationPrototype.new : SimulationPrototype α :=
  ⟨Boundary.new, 1, 1, 1 / 1000, 20, 0, []⟩

/-- SimulationPrototype::get_bound. -/
def SimulationPrototype.get_bound (proto : SimulationPrototype α) : Boundary α :=
  proto.bound

/-- SimulationPrototype::set_bound_x. -/
def SimulationPrototype.set_bound_x (proto : SimulationPrototype α) (val : α) :
    SimulationPrototype α :=
  { proto with bound := { proto.bound with x := val } }

/-- SimulationPrototype::set_bound_y. -/
def SimulationPrototype.set_bound_y (proto : SimulationPrototype α) (val : α) :
    SimulationPrototype α :=
  { proto with bound := { proto.bound with y := val } }

/-- SimulationPrototype::set_bound_z. -/
def SimulationPrototype.set_bound_z (proto : SimulationPrototype α) (val : α) :
    SimulationPrototype α :=
  { proto with bound := { proto.bound with z := val } }

/-- SimulationPrototype::set_grid_unit_size. -/
def SimulationPrototype.set_grid_unit_size (proto : SimulationPrototype α)
    (unit_size : α) : SimulationPrototype α :=
  { proto with grid_unit_size := unit_size }

/-- SimulationPrototype::set_grid_reach. -/
def SimulationPrototype.set_grid_reach (proto : SimulationPrototype α)
    (reach : ℕ) : SimulationPrototype α :=
  { proto with grid_reach := reach }

/-- SimulationPrototype::set_dt. -/
def SimulationPrototype.set_dt (proto : SimulationPrototype α) (dt : α) :
    SimulationPrototype α :=
  { proto with dt := dt }

/-- SimulationPrototype::set_steps_per_frame. -/
def SimulationPrototype.set_steps_per_frame (proto : SimulationPrototype α)
    (spf : ℕ) : SimulationPrototype α :=
  { proto with steps_per_frame := spf }

/-- SimulationPrototype::set_ext_a. -/
def SimulationPrototype.set_ext_a (proto : SimulationPrototype α)
    (ext_a : Vec3 α) : SimulationPrototype α :=
  { proto with ext_a := ext_a }

/-- SimulationPrototype::set_particles. -/
def SimulationPrototype.set_particles (proto : SimulationPrototype α)
    (particles : List (Particle α)) : SimulationPrototype α :=
  { proto with particles := particles }

instance (b : Boundary α) : Decidable b.is_valid := by
  unfold Boundary.is_valid
  infer_instance

instance (b : Boundary α) (pos : Vec3 α) : Decidable (b.contains_position pos) := by
  unfold Boundary.contains_position
  exact LinearOrder.decidableEq _ _

/-- The error list SimulationPrototype::compile accumulates, in push
order; the particle check folds contains_position over all particles with
logical and. -/
def SimulationPrototype.compileErrors (proto : SimulationPrototype α) :
    List ErrorKind :=
  (if ¬ proto.bound.is_valid then [ErrorKind.Bound] else []) ++
  (if proto.grid_unit_size < 0 then [ErrorKind.UnitSize] else []) ++
  (if proto.grid_reach < 1 then [ErrorKind.Reach] else []) ++
  (if proto.dt ≤ 0 then [ErrorKind.Dt] else []) ++
  (if proto.steps_per_frame ≤ 0 then [ErrorKind.StepsPerFrame] else []) ++
  (if ((proto.particles.map
          (fun pt => decide (proto.bound.contains_position pt.pos))).foldl
        (fun acc v => acc && v) true) = false
    then [ErrorKind.Particle] else [])

/-- SimulationPrototype::compile: evaluate every constraint; return the
aggregated error value when any is violated, else the compiled
simulation. -/
def SimulationPrototype.compile (proto : SimulationPrototype α) :
    Except InvalidParamError (VDWSimulation α) :=
  let errors := proto.compileErrors
  if errors.isEmpty then
    Except.ok (VDWSimulation.new proto.particles proto.bound
      (Grid.new proto.grid_unit_size proto.grid_reach) proto.dt
      proto.steps_per_frame proto.ext_a)
  else
    Except.error ⟨errors⟩

/-- The construction constraint behind each error kind (the ExtT and
ExtCond kinds of src/state/error.rs are never produced by compile). -/
def SimulationPrototype.Violates (proto : SimulationPrototype α) :
    ErrorKind → Prop
  | .Bound => ¬ proto.bound.is_valid
  | .UnitSize => proto.grid_unit_size < 0
  | .Reach => proto.grid_reach < 1
  | .Dt => proto.dt ≤ 0
  | .StepsPerFrame => proto.steps_per_frame = 0
  | .Particle => ¬ ∀ pt ∈ proto.particles, proto.bound.contains_position pt.pos
  | .ExtT => False
  | .ExtCond => False

theorem foldl_and_eq (l : List Bool) :
    ∀ s : Bool, l.foldl (fun acc v => acc && v) s = (s && l.all (fun b => b)) := by
  induction l with
  | nil => intro s; simp
  | cons a t ih => intro s; simp [ih (s && a), Bool.and_assoc]

theorem mem_ite_singleton {c : Prop} [Decidable c] (k a : ErrorKind) :
    (k ∈ if c then [a] else []) ↔ (c ∧ k = a) := by
  split_ifs with h <;> simp [h]

theorem mem_compileErrors (proto : SimulationPrototype ℚ) (k : ErrorKind) :
    k ∈ proto.compileErrors ↔ proto.Violates k := by
  have hpart : (((proto.particles.map
        (fun pt => decide (proto.bound.contains_position pt.pos))).foldl
      (fun acc v => acc && v) true) = false)
      ↔ ¬ ∀ pt ∈ proto.particles, proto.bound.contains_position pt.pos := by
    rw [foldl_and_eq]
    simp only [Bool.true_and, List.all_map, Function.comp]
    rw [Bool.eq_false_iff]
    simp [List.all_eq_true]
  rcases k with _ | _ | _ | _ | _ | _ | _ | _ <;>
    simp [SimulationPrototype.compileErrors, SimulationPrototype.Violates,
      List.mem_append, mem_ite_singleton, hpart, Nat.le_zero]

/-- C3: compile returns a ready simulation exactly when no construction
constraint is violated; the error list contains exactly the violated
kinds (validation is exhaustive, not fail-fast); and the prototype with
dt = -1, grid_reach = 0 and boundary x = 1 compiles to one error value
carrying the boundary, reach and timestep kinds together. -/
theorem compile_validation_exhaustive (proto : SimulationPrototype ℚ) :
    ((∃ sim, proto.compile = Except.ok sim) ↔ ∀ k, ¬ proto.Violates k) ∧
    (∀ k, k ∈ proto.compileErrors ↔ proto.Violates k) ∧
    (((((SimulationPrototype.new : SimulationPrototype ℚ).set_dt
          (-1)).set_grid_reach 0).set_bound_x 1).compile
      = Except.error ⟨[ErrorKind.Bound, ErrorKind.Reach, ErrorKind.Dt]⟩) := by
  refine ⟨?_, mem_compileErrors proto, ?_⟩
  · constructor
    · rintro ⟨sim, hsim⟩ k hk
      simp only [SimulationPrototype.compile] at hsim
      by_cases h : proto.compileErrors.isEmpty
      · rw [List.isEmpty_iff] at h
        rw [← mem_compileErrors proto k, h] at hk
        exact absurd hk (List.not_mem_nil k)
      · rw [if_neg h] at hsim
        exact Except.noConfusion hsim
    · intro hall
      have h : proto.compileErrors = [] := by
        rw [List.eq_nil_iff_forall_not_mem]
        intro k hk
        exact hall k ((mem_compileErrors proto k).mp hk)
      refine ⟨VDWSimulation.new proto.particles proto.bound
        (Grid.new proto.grid_unit_size proto.grid_reach) proto.dt
        proto.steps_per_frame proto.ext_a, ?_⟩
      simp only [SimulationPrototype.compile]
      rw [if_pos (by rw [h]; rfl)]
  · rfl

/-- f32::clamp: min(max(v, lo), hi). -/
def clampVal (v lo hi : α) : α := min (max v lo) hi

/-- Modelled from the spec: the once-per-frame pressure-pinning controller
of spec section 4.6; its code is absent from the source tree
(src/state.rs declares and initializes PressurePinned but nothing updates
bound_rate from it).  When pinned: delta = at_value - current_pressure,
slope = current_pressure - the pressure at the lookback window, and
bound_rate becomes clamp(slope - delta, -0.01 * box_size,
0.01 * box_size); on a pinned-to-unpinned transition bound_rate is forced
to 0; previous_state is refreshed to the current pin flag every update. -/
def pressure_controller_update (box_size current_pressure lookback_pressure : α)
    (pinned : PressurePinned α) (bound_rate : α) : α × PressurePinned α :=
  let new_rate :=
    if pinned.is_pinned then
      let delta := pinned.at_value - current_pressure
      let slope := current_pressure - lookback_pressure
      clampVal (slope - delta) (-(1 / 100) * box_size) ((1 / 100) * box_size)
    else if pinned.previous_state then (0 : α)
    else bound_rate
  (new_rate, { pinned with previous_state := pinned.is_pinned })

/-- C2: while pinned, the controller update sets the bound rate to
clamp(slope - delta, -0.01 * box, 0.01 * box); on a pinned-to-unpinned
transition it forces the bound rate to 0, and only once: the following
update (still unpinned) passes any bound rate through unchanged. -/
theorem pressure_controller_spec (box cp lb : ℚ) (pp : PressurePinned ℚ)
    (br : ℚ) :
    (pp.is_pinned = true →
      (pressure_controller_update box cp lb pp br).1
        = clampVal ((cp - lb) - (pp.at_value - cp))
            (-(1 / 100) * box) ((1 / 100) * box)) ∧
    (pp.previous_state = true → pp.is_pinned = false →
      (pressure_controller_update box cp lb pp br).1 = 0 ∧
      ∀ box2 cp2 lb2 br2 : ℚ,
        (pressure_controller_update box2 cp2 lb2
            (pressure_controller_update box cp lb pp br).2 br2).1 = br2) := by
  obtain ⟨prev, pin, atv⟩ := pp
  constructor
  · intro h
    simp only at h
    simp [pressure_controller_update, h]
  · intro h1 h2
    simp only at h1 h2
    subst h1 h2
    simp [pressure_controller_update]

/-- Witness for the controller theorem: one pinned update and one
pinned-to-unpinned transition at concrete values. -/
theorem pressure_controller_spec_witness :
    (pressure_controller_update 1 2 3 (⟨false, true, 5⟩ : PressurePinned ℚ) 7).1
        = clampVal ((2 - 3) - (5 - 2)) (-(1 / 100) * 1) ((1 / 100) * 1) ∧
    (pressure_controller_update 1 2 3 (⟨true, false, 5⟩ : PressurePinned ℚ) 7).1
        = 0 :=
  ⟨(pressure_controller_spec 1 2 3 ⟨false, true, 5⟩ 7).1 rfl,
   ((pressure_controller_spec 1 2 3 ⟨true, false, 5⟩ 7).2 rfl rfl).1⟩

/-- glam Vec3::length, defined at the reals where the source takes a
square root. -/
noncomputable def Vec3.length (v : Vec3 ℝ) : ℝ := Real.sqrt v.normSq

/-- src/state.rs SimulationState::calculate_particle_acceleration:
boundary forces, grid forces, accelerations
(bnd_f + grd_f) / mass + ext_accel, the summed potential energy and the
boundary impulse, the sum of |force| * dt. -/
noncomputable def SimulationState.calculate_particle_acceleration
    (s : SimulationState ℝ) : List (Vec3 ℝ) × List ℕ × ℝ × ℝ :=
  let particle_pos := s.particles.map (fun pt => pt.pos)
  let bound_force := s.bound.calculate_force particle_pos
  let r := s.grid.calculate_force particle_pos
  let accelerations := List.zipWith
    (fun pt fs => (fs.1 + fs.2).divScalar pt.mass + s.ext_accel)
    s.particles (bound_force.zip r.1)
  let potential_energy := r.2.1.sum
  let impulse := (bound_force.map (fun f => f.length * s.dt)).sum
  (accelerations, r.2.2, potential_energy, impulse)

/-- src/state.rs SimulationState::step: one leapfrog step: half drift,
force pass, kick, heat injection with the cached amount, neighbor-count
assignment, second half drift, boundary expansion, potential-energy
recording and impulse accumulation. -/
noncomputable def SimulationState.step (s : SimulationState ℝ) :
    SimulationState ℝ :=
  let dt := s.dt
  let particles1 := s.particles.map (fun pt => pt.step_pos dt (1 / 2))
  let r := SimulationState.calculate_particle_acceleration
    { s with particles := particles1 }
  let particles2 := List.zipWith (fun pt acc => pt.step_vel acc dt 1)
    particles1 r.1
  let heat_injection_ammount := s.heat_injection_ammount
  let particles3 := particles2.map (fun pt => pt.heat dt heat_injection_ammount)
  let particles4 := List.zipWith (fun pt nei => { pt with neighbors := nei })
    particles3 r.2.1
  let particles5 := particles4.map (fun pt => pt.step_pos dt (1 / 2))
  { s with
    steps := s.steps + 1
    particles := particles5
    bound := s.bound.expand s.bound_rate s.dt
    energy := { s.energy with potential := r.2.2.1 }
    impulse_accumultor := s.impulse_accumultor + r.2.2.2 }

/-- src/state.rs SimulationState::recalculate_kinetic_energy: kinetic
energy = sum of 0.5 * m * |v|^2, then the heat-injection cache becomes
(target_temp - kinetic / N) * inject_rate. -/
def SimulationState.recalculate_kinetic_energy (s : SimulationState α) :
    SimulationState α :=
  let kinetic := (s.particles.map (fun pt => 1 / 2 * pt.mass * pt.vel.normSq)).sum
  let current_temp := kinetic / (s.particles.length : α)
  { s with
    energy := { s.energy with kinetic := kinetic }
    heat_injection_ammount := (s.target_temp - current_temp) * s.inject_rate }

/-- src/state.rs SimulationState::commit_pressure: push the accumulated
impulse divided by the surface area, reset the accumulator. -/
def SimulationState.commit_pressure (s : SimulationState α) : SimulationState α :=
  let pressure_value := s.impulse_accumultor / s.bound.get_surface_area
  { s with
    pressure := s.pressure.push_sample pressure_value
    impulse_accumultor := 0 }

/-- src/state.rs SimulationState::record_history. -/
def SimulationState.record_history (s : SimulationState α) : SimulationState α :=
  { s with
    history := ⟨(s.history.energy.push s.energy).2,
                (s.history.pressure.push s.pressure.get_pressure).2⟩ }

/-- Modelled from the spec: the per-frame driver for SimulationState is
absent from the source tree (the advance_simulation in
src/state/sim_systems.rs predates SimulationState and never calls
recalculate_kinetic_energy).  Spec sections 2 and 4.5: execute
steps_per_frame integration steps, then update the tracker once per
frame. -/
noncomputable def SimulationState.frame (s : SimulationState ℝ) :
    SimulationState ℝ :=
  let s1 := SimulationState.step^[s.steps_per_frame] s
  ((s1.recalculate_kinetic_energy).commit_pressure).record_history

theorem SimulationState.step_iterate_ctrl (s : SimulationState ℝ) (k : ℕ) :
    (SimulationState.step^[k] s).heat_injection_ammount
        = s.heat_injection_ammount ∧
    (SimulationState.step^[k] s).target_temp = s.target_temp ∧
    (SimulationState.step^[k] s).inject_rate = s.inject_rate := by
  induction k with
  | zero => exact ⟨rfl, rfl, rfl⟩
  | succ n ih =>
    rw [Function.iterate_succ_apply']
    exact ⟨ih.1, ih.2.1, ih.2.2⟩

/-- C9: recalculate_kinetic_energy recomputes the kinetic energy as the
sum of 0.5 * m * |v|^2 and caches the heat-injection amount
(target_temp - kinetic / N) * inject_rate; step never touches the cache,
so the same cached amount is applied in every sub-step of a frame; and
the frame driver recomputes the amount exactly once, from the state after
its steps_per_frame sub-steps. -/
theorem heat_injection_per_frame (s : SimulationState ℝ) :
    ((s.recalculate_kinetic_energy).energy.kinetic
        = (s.particles.map (fun pt => 1 / 2 * pt.mass * pt.vel.normSq)).sum) ∧
    ((s.recalculate_kinetic_energy).heat_injection_ammount
        = (s.target_temp
            - (s.particles.map (fun pt => 1 / 2 * pt.mass * pt.vel.normSq)).sum
              / (s.particles.length : ℝ)) * s.inject_rate) ∧
    (∀ k : ℕ, (SimulationState.step^[k] s).heat_injection_ammount
        = s.heat_injection_ammount) ∧
    ((s.frame).heat_injection_ammount
        = ((SimulationState.step^[s.steps_per_frame] s).target_temp
            - ((SimulationState.step^[s.steps_per_frame] s).particles.map
                (fun pt => 1 / 2 * pt.mass * pt.vel.normSq)).sum
              / (((SimulationState.step^[s.steps_per_frame] s).particles.length
                  : ℝ))) * s.inject_rate
        ∧ (SimulationState.step^[s.steps_per_frame] s).target_temp
            = s.target_temp) := by
  refine ⟨rfl, rfl, fun k => (SimulationState.step_iterate_ctrl s k).1, ?_, ?_⟩
  · have h := SimulationState.step_iterate_ctrl s s.steps_per_frame
    calc (s.frame).heat_injection_ammount
        = ((SimulationState.step^[s.steps_per_frame] s).target_temp
            - ((SimulationState.step^[s.steps_per_frame] s).particles.map
                (fun pt => 1 / 2 * pt.mass * pt.vel.normSq)).sum
              / (((SimulationState.step^[s.steps_per_frame] s).particles.length
                  : ℝ)))
          * (SimulationState.step^[s.steps_per_frame] s).inject_rate := rfl
      _ = _ := by rw [h.2.2]
  · exact (SimulationState.step_iterate_ctrl s s.steps_per_frame).2.1

/-- The Bevy resources read and written by advance_simulation of
src/state/sim_systems.rs: the particle list, grid, boundary, Dt,
ExtAccel, BoundRate, TargetTemp, InjectRate, PotentialEnergy and
KineticEnergy. -/
structure OldResources where
  particles : List (Particle ℝ)
  grid : Grid ℝ
  bound : Boundary ℝ
  dt : ℝ
  ext_accel : Vec3 ℝ
  bound_rate : ℝ
  targ_temp : ℝ
  inject_rate : ℝ
  potential_energy : ℝ
  kinetic_energy : ℝ

/-- src/state/sim_systems.rs calculate_particle_acceleration: the force
pass over the resource form of the state. -/
noncomputable def old_calculate_particle_acceleration (st : OldResources) :
    List (Vec3 ℝ) × List ℕ × ℝ × ℝ :=
  let particle_pos := st.particles.map (fun pt => pt.pos)
  let bound_force := st.bound.calculate_force particle_pos
  let r := st.grid.calculate_force particle_pos
  let accelerations := List.zipWith
    (fun pt fs => (fs.1 + fs.2).divScalar pt.mass + st.ext_accel)
    st.particles (bound_force.zip r.1)
  let potential_energy := r.2.1.sum
  let impulse := (bound_force.map (fun f => f.length * st.dt)).sum
  (accelerations, r.2.2, potential_energy, impulse)

/-- src/state/sim_systems.rs step: one leapfrog step on the resources;
here the heat amount is per-particle, (targ_temp - |v|) * inject_rate.
Returns the stepped resources with the potential energy and impulse. -/
noncomputable def old_step (st : OldResources) : OldResources × ℝ × ℝ :=
  let particles1 := st.particles.map (fun pt => pt.step_pos st.dt (1 / 2))
  let r := old_calculate_particle_acceleration { st with particles := particles1 }
  let particles2 := List.zipWith (fun pt acc => pt.step_vel acc st.dt 1)
    particles1 r.1
  let particles3 := particles2.map (fun pt =>
    pt.heat st.dt ((st.targ_temp - pt.vel.length) * st.inject_rate))
  let particles4 := List.zipWith (fun pt nei => { pt with neighbors := nei })
    particles3 r.2.1
  let particles5 := particles4.map (fun pt => pt.step_pos st.dt (1 / 2))
  ({ st with particles := particles5 }, r.2.2.1, r.2.2.2)

/-- The body of the frame loop of advance_simulation: one step, then the
boundary expansion when the bound rate is nonzero. -/
noncomputable def old_loop_body (st : OldResources) : OldResources :=
  let st1 := (old_step st).1
  if st1.bound_rate ≠ 0 then
    { st1 with bound := st1.bound.expand st1.bound_rate st1.dt }
  else st1

/-- src/state/sim_systems.rs advance_simulation: nineteen loop iterations
(for _i in 0..19), a twentieth step whose returned values are kept, the
conditional boundary expansion, then the once-per-frame energy recording.
The system reads no steps_per_frame parameter at all; the source carries
the comment TODO implement steps per frame. -/
noncomputable def advance_simulation (st : OldResources) : OldResources :=
  let st19 := old_loop_body^[19] st
  let r := old_step st19
  let st20 :=
    if r.1.bound_rate ≠ 0 then
      { r.1 with bound := r.1.bound.expand r.1.bound_rate r.1.dt }
    else r.1
  { st20 with
    potential_energy := r.2.1
    kinetic_energy := (st20.particles.map
      (fun pt => 1 / 2 * pt.mass * pt.vel.normSq)).sum }

/-- C7 (the driver as the source writes it): advance_simulation advances
the particle system by exactly twenty applications of the per-step loop
body, for every state and independently of any configured
steps_per_frame (the resources carry none), and records the kinetic
energy once per frame, from the state after those twenty steps. -/
theorem advance_simulation_twenty_steps (st : OldResources) :
    (advance_simulation st).particles = (old_loop_body^[20] st).particles ∧
    (advance_simulation st).kinetic_energy
      = ((old_loop_body^[20] st).particles.map
          (fun pt => 1 / 2 * pt.mass * pt.vel.normSq)).sum := by
  have h20 : old_loop_body^[20] st = old_loop_body (old_loop_body^[19] st) := by
    rw [show (20 : ℕ) = 19 + 1 from rfl, Function.iterate_succ_apply']
  have hloop : (old_loop_body^[20] st).particles
      = (old_step (old_loop_body^[19] st)).1.particles := by
    rw [h20]
    simp only [old_loop_body]
    split_ifs <;> rfl
  have hadv : (advance_simulation st).particles
      = (old_step (old_loop_body^[19] st)).1.particles := by
    simp only [advance_simulation]
    split_ifs <;> rfl
  refine ⟨by rw [hadv, hloop], ?_⟩
  rw [hloop]
  simp only [advance_simulation]
  split_ifs <;> rfl
